import Mathlib

/-!
Verification development for the fuse-zstd filesystem translation engine.

The definitions below are shallow embeddings of the Rust source:
  * `updateInodeIdx` embeds `ZstdFS::update_inode_idx` (src/main.rs:719-742);
  * `makePathStr` embeds `InodeCache::make_path_str` (src/cache.rs:127-143);
  * the `ZState` machinery embeds the dispatcher-level state of `ZstdFS`
    (src/main.rs): the data-dir contents keyed by absolute path string,
    the single-u64 inode cache, and the open-file table as used by
    `sync_to_fs`, `unlink_wrapper` and `rename_wrapper`;
  * `OFiles` and its operations embed the two-index open-file table of
    src/file.rs (`OpenedFiles`).
Machine integers are modelled as `Nat`; the only place where 64-bit
wrap-around matters is the inode counter, which the source guards
explicitly with a reset to `u64::MAX`, embedded verbatim.
-/

/-- `u64::MAX` as a natural number literal. -/
def U64MAX : Nat := 18446744073709551615

/-- `fuser::FUSE_ROOT_ID`. -/
def FUSE_ROOT_ID : Nat := 1

/-- errno `ENOENT`. -/
def ENOENT : Int := 2

/-- errno `EIO` (named with a suffix to keep identifiers plain). -/
def EIO_err : Int := 5

/-- errno `EBADF`. -/
def EBADF : Int := 9

/-!
## Mount-inode allocator

`ZstdFS::update_inode_idx` (src/main.rs:719-742):

    let res = self.inode_idx;
    if self.inode_idx - 1 <= FUSE_ROOT_ID {
        self.inode_idx = u64::MAX;        // counter rotated
    }
    self.inode_idx -= 1;
    ...persist user.ino_idx...
    Ok(res)

The returned MI is the state before the decrement; on rotation the state
is reset to `u64::MAX` before the decrement.
-/

/-- One allocation step: returns the allocated MI and the next counter
state, exactly as `update_inode_idx` computes them. -/
def updateInodeIdx (idx : Nat) : Nat × Nat :=
  (idx, (if idx - 1 ≤ FUSE_ROOT_ID then U64MAX else idx) - 1)

/-- Counter state after `k` allocations, starting from the initial
`u64::MAX` (the value used when no `user.ino_idx` xattr exists). -/
def stateSeq : Nat → Nat
  | 0 => U64MAX
  | k + 1 => (updateInodeIdx (stateSeq k)).2

/-- The MI returned by the `k`-th allocation of the process. -/
def retSeq (k : Nat) : Nat := (updateInodeIdx (stateSeq k)).1

theorem retSeq_eq_stateSeq (k : Nat) : retSeq k = stateSeq k := rfl

theorem stateSeq_closed_form : ∀ k, k ≤ U64MAX - 2 → stateSeq k = U64MAX - k := by
  intro k
  induction k with
  | zero =>
    intro _
    show U64MAX = U64MAX - 0
    omega
  | succ n ih =>
    intro hle
    have hn : n ≤ U64MAX - 2 := Nat.le_of_succ_le hle
    have hs : stateSeq n = U64MAX - n := ih hn
    have hbig : ¬ (U64MAX - n - 1 ≤ FUSE_ROOT_ID) := by
      simp only [U64MAX, FUSE_ROOT_ID] at *
      omega
    simp only [stateSeq, updateInodeIdx, hs, hbig, if_false]
    simp only [U64MAX, FUSE_ROOT_ID] at *
    omega

theorem stateSeq_succ (k : Nat) : stateSeq (k + 1) = (updateInodeIdx (stateSeq k)).2 := rfl

theorem stateSeq_rotation : stateSeq (U64MAX - 1) = U64MAX - 1 := by
  have h2 : stateSeq (U64MAX - 2) = 2 := by
    have h := stateSeq_closed_form (U64MAX - 2) (Nat.le_refl _)
    rw [h]
    simp only [U64MAX]
  have hstep : U64MAX - 1 = (U64MAX - 2) + 1 := by
    simp only [U64MAX]
  rw [hstep, stateSeq_succ, h2]
  have hcond : 2 - 1 ≤ FUSE_ROOT_ID := by
    simp only [FUSE_ROOT_ID]
    omega
  show (if 2 - 1 ≤ FUSE_ROOT_ID then U64MAX else 2) - 1 = U64MAX - 1
  rw [if_pos hcond]

theorem stateSeq_ge_two : ∀ k, 2 ≤ stateSeq k := by
  intro k
  induction k with
  | zero =>
    show 2 ≤ U64MAX
    simp only [U64MAX]
    omega
  | succ n ih =>
    simp only [stateSeq, updateInodeIdx]
    by_cases h : stateSeq n - 1 ≤ FUSE_ROOT_ID
    · rw [if_pos h]
      simp only [U64MAX]
      omega
    · rw [if_neg h]
      simp only [FUSE_ROOT_ID] at h
      omega

/-!
## Path string builder

`InodeCache::make_path_str` (src/cache.rs:127-143).
-/

/-- Embeds `InodeCache::make_path_str`: compose a directory path and a
trailing name, with the source's four empty-segment cases. -/
def makePathStr (p n : String) : Except Int String :=
  if ¬p.isEmpty ∧ ¬n.isEmpty then .ok (p ++ "/" ++ n)
  else if p.isEmpty ∧ ¬n.isEmpty then .ok n
  else if ¬p.isEmpty ∧ n.isEmpty then .ok p
  else .error EIO_err

/-!
## Dispatcher-level state (`ZstdFS`, src/main.rs)

The data directory is modelled as a partial map from absolute path
strings to compressed objects; an object carries its host inode number
(`st_ino`) and the two xattrs `user.ino` and `user.real_size`.  The
inode cache is the u64-keyed MI → path map the dispatcher accesses via
`get_inode_path` / `set_inode_path` / `del_inode_path`, and the open
file table maps FH numbers to handler records holding `flags`,
`needs_sync`, the working file (represented by its byte length) and the
optional back-reference (`refs`).  `hostError` is an oracle: when it is
`some e`, the fallible host calls inside `store_to_source_file` fail
with raw errno `e` (the value `convert_io_error` would produce).
-/

structure FsObj where
  hostIno : Nat
  userIno : Option Nat
  realSize : Option Nat
  deriving DecidableEq, Repr

structure RefsM where
  ino : Nat
  path : String
  deriving DecidableEq, Repr

structure FileHandlerM where
  flags : Int
  needsSync : Bool
  fileLen : Nat
  refs : Option RefsM
  deriving DecidableEq, Repr

/-- Host-visible events emitted during one commit, in source order. -/
inductive CEvent where
  | syncSource
  | setInoTmp (ino : Nat)
  | syncTmp
  | renameToDest
  | setRealSize (n : Nat)
  | syncDest
  deriving DecidableEq, Repr

structure ZState where
  fs : String → Option FsObj
  cache : Nat → Option String
  opened : Nat → Option FileHandlerM
  allocIdx : Nat
  nextHostIno : Nat
  hostError : Option Int
  convert : Bool

/-- `InodeCache::del_inode_path` under the dispatcher's u64 keying. -/
def cacheDelZ (c : Nat → Option String) (ino : Nat) : Nat → Option String :=
  fun i => if i = ino then none else c i

/-- `InodeCache::set_inode_path` under the dispatcher's u64 keying
(the stored value is the built path string). -/
def cacheSetZ (c : Nat → Option String) (ino : Nat) (path : String) : Nat → Option String :=
  fun i => if i = ino then some path else c i

/-- `OpenedFiles::unlink(ino)` as the dispatcher uses it: clear the
`refs` field of every FH indexed under inode key `ino` (src/file.rs:151-163;
the index sets are kept in sync with the `refs.inode` field recorded by
`insert`, so membership is expressed through that field). -/
def openedUnlinkZ (st : ZState) (ino : Nat) : ZState :=
  { st with opened := fun fh =>
      match st.opened fh with
      | some h =>
        match h.refs with
        | some r => if r.ino = ino then some { h with refs := none } else some h
        | none => some h
      | none => none }

/-- Embeds `ZstdFS::store_to_source_file` (src/main.rs:755-832).

`path` is `dir_path.join(name)` (the function receives the two pieces
and recomposes exactly this join).  The named temporary file receives a
fresh host inode, modelled by `nextHostIno`; the atomic `persist`
therefore replaces the destination's host inode on every commit.  The
returned trace lists the host calls in the order the source performs
them: `source.sync_all`, the `user.ino` xattr write on the temp file,
the temp-file `sync_all` (fresh-MI branch only), the rename, the
`user.real_size` xattr write and the destination `sync_all`. -/
def store_to_source_file (st : ZState) (path : String) (realSize : Nat) :
    ZState × Except Int Nat × List CEvent :=
  match st.hostError with
  | some e => (st, .error e, [])
  | none =>
    match (st.fs path).bind (fun o => o.userIno) with
    | some m =>
      ({ st with
          fs := fun p => if p = path then some ⟨st.nextHostIno, some m, some realSize⟩ else st.fs p,
          nextHostIno := st.nextHostIno + 1 },
       .ok m,
       [.syncSource, .setInoTmp m, .renameToDest, .setRealSize realSize, .syncDest])
    | none =>
      let alloc := updateInodeIdx st.allocIdx
      ({ st with
          fs := fun p => if p = path then some ⟨st.nextHostIno, some alloc.1, some realSize⟩ else st.fs p,
          allocIdx := alloc.2,
          nextHostIno := st.nextHostIno + 1 },
       .ok alloc.1,
       [.syncSource, .setInoTmp alloc.1, .syncTmp, .renameToDest, .setRealSize realSize, .syncDest])

/-- Embeds `ZstdFS::sync_to_fs` (src/main.rs:174-213): look the FH up
(removing it when `close`), commit the working file through
`store_to_source_file` when `needs_sync || force_sync` and the FH still
has its back-reference, and reset `needs_sync` after a non-closing
commit. -/
def sync_to_fs (st : ZState) (fh : Nat) (close force : Bool) :
    ZState × Except Int Unit :=
  if close then
    match st.opened fh with
    | none => (st, .error EBADF)
    | some h =>
      let st1 := { st with opened := fun k => if k = fh then none else st.opened k }
      if h.needsSync || force then
        match h.refs with
        | some refs =>
          let r := store_to_source_file st1 refs.path h.fileLen
          match r.2.1 with
          | .error e => (r.1, .error e)
          | .ok _ => (r.1, .ok ())
        | none => (st1, .ok ())
      else (st1, .ok ())
  else
    match st.opened fh with
    | none => (st, .error ENOENT)
    | some h =>
      if h.needsSync || force then
        match h.refs with
        | some refs =>
          let r := store_to_source_file st refs.path h.fileLen
          match r.2.1 with
          | .error e => (r.1, .error e)
          | .ok _ =>
            ({ r.1 with
                opened := fun k =>
                  if k = fh then some { h with needsSync := false } else r.1.opened k },
             .ok ())
        | none => (st, .ok ())
      else (st, .ok ())

/-- `ZstdFS::fsync_wrapper` (src/main.rs:709-712). -/
def fsync_wrapper (st : ZState) (fh : Nat) : ZState × Except Int Unit :=
  sync_to_fs st fh false true

/-- `ZstdFS::flush_wrapper` (src/main.rs:714-717). -/
def flush_wrapper (st : ZState) (fh : Nat) : ZState × Except Int Unit :=
  sync_to_fs st fh false false

/-- `ZstdFS::release_wrapper` (src/main.rs:595-599). -/
def release_wrapper (st : ZState) (fh : Nat) : ZState × Except Int Unit :=
  sync_to_fs st fh true false

/-- The reply a FUSE operation sends. -/
inductive ReplyR where
  | okReply
  | errReply (code : Int)
  deriving DecidableEq, Repr

/-- Embeds `Filesystem::release` (src/main.rs:994-1019): success and the
`EBADF` error both reply ok; every other error code is propagated. -/
def releaseOp (st : ZState) (fh : Nat) : ZState × ReplyR :=
  match release_wrapper st fh with
  | (st1, .ok _) => (st1, .okReply)
  | (st1, .error e) => if e = EBADF then (st1, .okReply) else (st1, .errReply e)

/-- Embeds `ZstdFS::unlink_wrapper` (src/main.rs:629-639): operate on
`parent_path.join(name + ".zst")` only — read `user.ino` from it (a
missing file fails this read with `ENOENT` before anything mutates),
drop the MI from the cache, unlink-mark its FHs, and host-unlink it. -/
def unlink_wrapper (st : ZState) (parentPath name : String) : ZState × Except Int Unit :=
  let path := parentPath ++ "/" ++ name ++ ".zst"
  match st.fs path with
  | none => (st, .error ENOENT)
  | some obj =>
    let st1 :=
      match obj.userIno with
      | some ino => openedUnlinkZ { st with cache := cacheDelZ st.cache ino } ino
      | none => st
    ({ st1 with fs := fun p => if p = path then none else st1.fs p }, .ok ())

/-- Embeds the destination handling and rename of
`ZstdFS::rename_wrapper` (src/main.rs:661-707).  `fromPath`/`toPath`
are the already-resolved `.zst`-suffixed paths and `ino` the source MI
produced by the preceding `lookup_wrapper` call (lines 671-691).  When
the destination exists the source reads its host inode via
`fs::metadata(..).st_ino()` and passes that value — not the `user.ino`
xattr — to `del_inode_path` and `OpenedFiles::unlink`; then the host
rename runs and the cache binding of the source MI is updated. -/
def rename_wrapper (st : ZState) (fromPath toPath : String) (ino : Nat) :
    ZState × Except Int Unit :=
  let st1 :=
    match st.fs toPath with
    | some obj => openedUnlinkZ { st with cache := cacheDelZ st.cache obj.hostIno } obj.hostIno
    | none => st
  match st1.fs fromPath with
  | none => (st1, .error ENOENT)
  | some srcObj =>
    ({ st1 with
        fs := fun p => if p = toPath then some srcObj else if p = fromPath then none else st1.fs p,
        cache := cacheSetZ st1.cache ino toPath },
     .ok ())

/-- Fold `store_to_source_file` over a list of working-file sizes,
collecting the MI returned by each commit. -/
def commitInos (path : String) : ZState → List Nat → ZState × List Nat
  | st, [] => (st, [])
  | st, s :: rest =>
    let r := store_to_source_file st path s
    match r.2.1 with
    | .ok i =>
      let tail := commitInos path r.1 rest
      (tail.1, i :: tail.2)
    | .error _ => (r.1, [])

/-!
## Theorems: allocator (C6) and path builder (C8)
-/

/-- Claim C6 counterexample: starting from `u64::MAX`, the allocation
sequence of `update_inode_idx` returns the value `u64::MAX - 1` both at
step 1 and at step `u64::MAX - 1` (the step after the counter reaches 2
and resets to `u64::MAX`), so an MI value is returned twice within a
single process lifetime, contradicting the claim as stated. -/
theorem allocator_reuses_after_rotation_cex :
    retSeq 1 = retSeq (U64MAX - 1) ∧ 1 ≠ U64MAX - 1 := by
  constructor
  · have h1 : stateSeq 1 = U64MAX - 1 := by
      have h := stateSeq_closed_form 1 (by simp only [U64MAX]; omega)
      exact h
    rw [retSeq_eq_stateSeq, retSeq_eq_stateSeq, h1, stateSeq_rotation]
  · simp only [U64MAX]
    omega

/-- Claim C6 amended: every MI the allocator returns is strictly greater
than `FUSE_ROOT_ID`, and within the first `u64::MAX - 2` allocations of
a process starting from `u64::MAX` the returned MIs are strictly
decreasing (hence pairwise distinct); only once the counter rotates back
to `u64::MAX` (after `u64::MAX - 2` allocations) can values repeat. -/
theorem allocator_monotone_before_rotation :
    (∀ k, FUSE_ROOT_ID < retSeq k) ∧
    (∀ j k, j < k → k ≤ U64MAX - 2 → retSeq k < retSeq j) := by
  constructor
  · intro k
    have h := stateSeq_ge_two k
    rw [retSeq_eq_stateSeq]
    simp only [FUSE_ROOT_ID]
    omega
  · intro j k hjk hk
    have hj : j ≤ U64MAX - 2 := le_trans (Nat.le_of_lt hjk) hk
    rw [retSeq_eq_stateSeq, retSeq_eq_stateSeq,
        stateSeq_closed_form j hj, stateSeq_closed_form k hk]
    simp only [U64MAX] at *
    omega

theorem allocator_monotone_before_rotation_witness :
    FUSE_ROOT_ID < retSeq 0 ∧ retSeq 1 < retSeq 0 :=
  ⟨allocator_monotone_before_rotation.1 0,
   allocator_monotone_before_rotation.2 0 1 (by omega) (by simp only [U64MAX]; omega)⟩

/-- Claim C8: for all path segments `p` and `n`, `make_path_str` returns
`p + "/" + n` when both are non-empty, `n` when only `p` is empty, `p`
when only `n` is empty, and fails with `EIO` when both are empty. -/
theorem make_path_str_cases (p n : String) :
    (p.isEmpty = false → n.isEmpty = false → makePathStr p n = .ok (p ++ "/" ++ n)) ∧
    (p.isEmpty = true → n.isEmpty = false → makePathStr p n = .ok n) ∧
    (p.isEmpty = false → n.isEmpty = true → makePathStr p n = .ok p) ∧
    (p.isEmpty = true → n.isEmpty = true → makePathStr p n = .error EIO_err) := by
  refine ⟨?_, ?_, ?_, ?_⟩ <;> intro hp hn <;> simp [makePathStr, hp, hn]

theorem make_path_str_cases_witness :
    makePathStr "a" "b" = .ok "a/b" ∧ makePathStr "" "b" = .ok "b" ∧
    makePathStr "a" "" = .ok "a" ∧ makePathStr "" "" = .error EIO_err := by
  refine ⟨?_, ?_, ?_, ?_⟩
  · have h := (make_path_str_cases "a" "b").1 rfl rfl
    rw [h]
    exact congrArg Except.ok (by decide)
  · exact (make_path_str_cases "" "b").2.1 rfl rfl
  · exact (make_path_str_cases "a" "").2.2.1 rfl rfl
  · exact (make_path_str_cases "" "").2.2.2 rfl rfl

/-!
## Helper lemmas about the commit engine
-/

theorem store_reuse (st : ZState) (path : String) (rs m : Nat)
    (he : st.hostError = none)
    (hm : (st.fs path).bind (fun o => o.userIno) = some m) :
    store_to_source_file st path rs =
      ({ st with
          fs := fun p => if p = path then some ⟨st.nextHostIno, some m, some rs⟩ else st.fs p,
          nextHostIno := st.nextHostIno + 1 },
       .ok m,
       [.syncSource, .setInoTmp m, .renameToDest, .setRealSize rs, .syncDest]) := by
  simp [store_to_source_file, he, hm]

theorem store_fresh (st : ZState) (path : String) (rs : Nat)
    (he : st.hostError = none)
    (hm : (st.fs path).bind (fun o => o.userIno) = none) :
    store_to_source_file st path rs =
      ({ st with
          fs := fun p =>
            if p = path then some ⟨st.nextHostIno, some (updateInodeIdx st.allocIdx).1, some rs⟩
            else st.fs p,
          allocIdx := (updateInodeIdx st.allocIdx).2,
          nextHostIno := st.nextHostIno + 1 },
       .ok (updateInodeIdx st.allocIdx).1,
       [.syncSource, .setInoTmp (updateInodeIdx st.allocIdx).1, .syncTmp, .renameToDest,
        .setRealSize rs, .syncDest]) := by
  simp [store_to_source_file, he, hm]

theorem commitInos_cons_ok (path : String) (st : ZState) (s : Nat) (rest : List Nat) (i : Nat)
    (h : (store_to_source_file st path s).2.1 = .ok i) :
    commitInos path st (s :: rest) =
      ((commitInos path (store_to_source_file st path s).1 rest).1,
        i :: (commitInos path (store_to_source_file st path s).1 rest).2) := by
  simp only [commitInos, h]

theorem commitInos_const (path : String) (m : Nat) :
    ∀ (sizes : List Nat) (st : ZState), st.hostError = none →
      (st.fs path).bind (fun o => o.userIno) = some m →
      (commitInos path st sizes).2 = sizes.map (fun _ => m) ∧
      ((commitInos path st sizes).1.fs path).bind (fun o => o.userIno) = some m ∧
      (commitInos path st sizes).1.hostError = none := by
  intro sizes
  induction sizes with
  | nil =>
    intro st he hm
    exact ⟨rfl, hm, he⟩
  | cons s rest ih =>
    intro st he hm
    have hst := store_reuse st path s m he hm
    have hnext :
        ((store_to_source_file st path s).1.fs path).bind (fun o => o.userIno) = some m := by
      rw [hst]
      simp
    have hnexte : (store_to_source_file st path s).1.hostError = none := by
      rw [hst]
      exact he
    have hok : (store_to_source_file st path s).2.1 = .ok m := by rw [hst]
    have hres := ih (store_to_source_file st path s).1 hnexte hnext
    rw [commitInos_cons_ok path st s rest m hok]
    exact ⟨by simp [hres.1], hres.2.1, hres.2.2⟩

/-- Claim C1: during a commit the destination keeps the MI it already
carried in `user.ino` (and the commit returns it); a destination
without a `user.ino` xattr gets the freshly allocated MI; consequently,
once a path carries an MI, every commit of any sequence of commits
returns that same MI and leaves it on the object, while each commit
replaces the object's host inode with a fresh one. -/
theorem commit_preserves_mount_inode (st : ZState) (path : String) (rs : Nat)
    (he : st.hostError = none) :
    (∀ m, (st.fs path).bind (fun o => o.userIno) = some m →
      (store_to_source_file st path rs).2.1 = .ok m ∧
      ((store_to_source_file st path rs).1.fs path).bind (fun o => o.userIno) = some m) ∧
    ((st.fs path).bind (fun o => o.userIno) = none →
      (store_to_source_file st path rs).2.1 = .ok (updateInodeIdx st.allocIdx).1 ∧
      ((store_to_source_file st path rs).1.fs path).bind (fun o => o.userIno)
        = some (updateInodeIdx st.allocIdx).1) ∧
    (∀ m sizes, (st.fs path).bind (fun o => o.userIno) = some m →
      (commitInos path st sizes).2 = sizes.map (fun _ => m)) ∧
    (∀ obj, st.fs path = some obj → obj.hostIno < st.nextHostIno →
      ∃ obj2, (store_to_source_file st path rs).1.fs path = some obj2 ∧
        obj2.hostIno = st.nextHostIno ∧ obj2.hostIno ≠ obj.hostIno ∧
        obj2.hostIno < (store_to_source_file st path rs).1.nextHostIno) := by
  refine ⟨?_, ?_, ?_, ?_⟩
  · intro m hm
    rw [store_reuse st path rs m he hm]
    exact ⟨rfl, by simp⟩
  · intro hm
    rw [store_fresh st path rs he hm]
    exact ⟨rfl, by simp⟩
  · intro m sizes hm
    exact (commitInos_const path m sizes st he hm).1
  · intro obj hobj hlt
    cases hm : (st.fs path).bind (fun o => o.userIno) with
    | some m =>
      rw [store_reuse st path rs m he hm]
      refine ⟨⟨st.nextHostIno, some m, some rs⟩, by simp, rfl, ?_, ?_⟩
      · show st.nextHostIno ≠ obj.hostIno
        omega
      · show st.nextHostIno < st.nextHostIno + 1
        omega
    | none =>
      rw [store_fresh st path rs he hm]
      refine ⟨⟨st.nextHostIno, some (updateInodeIdx st.allocIdx).1, some rs⟩, by simp, rfl, ?_, ?_⟩
      · show st.nextHostIno ≠ obj.hostIno
        omega
      · show st.nextHostIno < st.nextHostIno + 1
        omega

/-- A data directory holding one compressed object `d/f.zst` with MI 100,
host inode 3 and `real_size` 4, no open files, counter at 500. -/
def exStC1 : ZState :=
  { fs := fun p => if p = "d/f.zst" then some ⟨3, some 100, some 4⟩ else none,
    cache := fun _ => none,
    opened := fun _ => none,
    allocIdx := 500,
    nextHostIno := 10,
    hostError := none,
    convert := false }

theorem commit_preserves_mount_inode_witness :
    (store_to_source_file exStC1 "d/f.zst" 9).2.1 = .ok 100 ∧
    (commitInos "d/f.zst" exStC1 [1, 2, 3]).2 = [100, 100, 100] ∧
    (∃ obj2, (store_to_source_file exStC1 "d/f.zst" 9).1.fs "d/f.zst" = some obj2 ∧
      obj2.hostIno = 10 ∧ obj2.hostIno ≠ 3 ∧
      obj2.hostIno < (store_to_source_file exStC1 "d/f.zst" 9).1.nextHostIno) := by
  have h := commit_preserves_mount_inode exStC1 "d/f.zst" 9 rfl
  refine ⟨(h.1 100 rfl).1, ?_, ?_⟩
  · have h2 := h.2.2.1 100 [1, 2, 3] rfl
    simpa using h2
  · exact h.2.2.2 ⟨3, some 100, some 4⟩ rfl (by decide)

theorem store_shape (st : ZState) (path : String) (rs : Nat) (he : st.hostError = none) :
    ∃ i, (store_to_source_file st path rs).2.1 = .ok i ∧
      (store_to_source_file st path rs).1.fs path = some ⟨st.nextHostIno, some i, some rs⟩ ∧
      (store_to_source_file st path rs).1.opened = st.opened ∧
      (store_to_source_file st path rs).1.hostError = none ∧
      (store_to_source_file st path rs).1.nextHostIno = st.nextHostIno + 1 := by
  cases hm : (st.fs path).bind (fun o => o.userIno) with
  | some m =>
    rw [store_reuse st path rs m he hm]
    exact ⟨m, rfl, by simp, rfl, he, rfl⟩
  | none =>
    rw [store_fresh st path rs he hm]
    exact ⟨(updateInodeIdx st.allocIdx).1, rfl, by simp, rfl, he, rfl⟩

/-!
## Theorems: commit/sync semantics (C4, C5, C7)
-/

/-- Claim C5 counterexample: committing onto `d/f.zst`, which exists and
carries `user.ino` 100 (the MI-reuse branch), emits no temp-file sync
at all — the `user.ino` xattr write on the temp file is followed
directly by the rename — refuting the claim that the temp file is
durably flushed before the rename in the reuse case too. -/
theorem reuse_branch_skips_tmp_sync_cex :
    exStC1.fs "d/f.zst" = some ⟨3, some 100, some 4⟩ ∧
    (store_to_source_file exStC1 "d/f.zst" 4).2.2 =
      [.syncSource, .setInoTmp 100, .renameToDest, .setRealSize 4, .syncDest] ∧
    CEvent.syncTmp ∉ (store_to_source_file exStC1 "d/f.zst" 4).2.2 := by
  refine ⟨rfl, rfl, ?_⟩
  decide

/-- Claim C5 amended: the temp file is durably flushed between the
`user.ino` xattr write and the atomic rename only when a fresh MI is
allocated; when the destination's MI is reused no temp-file sync occurs
before the rename (the destination is synced only after it). -/
theorem tmp_sync_only_on_fresh_mi (st : ZState) (path : String) (rs : Nat)
    (he : st.hostError = none) :
    ((st.fs path).bind (fun o => o.userIno) = none →
      (store_to_source_file st path rs).2.2 =
        [.syncSource, .setInoTmp (updateInodeIdx st.allocIdx).1, .syncTmp, .renameToDest,
         .setRealSize rs, .syncDest]) ∧
    (∀ m, (st.fs path).bind (fun o => o.userIno) = some m →
      (store_to_source_file st path rs).2.2 =
        [.syncSource, .setInoTmp m, .renameToDest, .setRealSize rs, .syncDest] ∧
      CEvent.syncTmp ∉ (store_to_source_file st path rs).2.2) := by
  constructor
  · intro hm
    rw [store_fresh st path rs he hm]
  · intro m hm
    rw [store_reuse st path rs m he hm]
    refine ⟨rfl, ?_⟩
    simp

/-- An empty data directory (nothing at the destination), counter at 500. -/
def exStFresh : ZState :=
  { fs := fun _ => none,
    cache := fun _ => none,
    opened := fun _ => none,
    allocIdx := 500,
    nextHostIno := 10,
    hostError := none,
    convert := false }

theorem tmp_sync_only_on_fresh_mi_witness :
    (store_to_source_file exStFresh "d/g.zst" 4).2.2 =
      [.syncSource, .setInoTmp 500, .syncTmp, .renameToDest, .setRealSize 4, .syncDest] ∧
    (store_to_source_file exStC1 "d/f.zst" 4).2.2 =
      [.syncSource, .setInoTmp 100, .renameToDest, .setRealSize 4, .syncDest] := by
  constructor
  · exact (tmp_sync_only_on_fresh_mi exStFresh "d/g.zst" 4 rfl).1 rfl
  · exact ((tmp_sync_only_on_fresh_mi exStC1 "d/f.zst" 4 rfl).2 100 rfl).1

/-- Claim C4: `fsync` commits the FH's working file even when the dirty
flag is false and leaves the FH in the open-file table; `flush` commits
only when the dirty flag is true; a successful non-closing commit
resets the dirty flag to false. -/
theorem fsync_flush_commit_semantics (st : ZState) (fh : Nat) (h : FileHandlerM) (rf : RefsM)
    (he : st.hostError = none) (hfh : st.opened fh = some h) (hr : h.refs = some rf) :
    ((fsync_wrapper st fh).2 = .ok () ∧
     (fsync_wrapper st fh).1.opened fh = some { h with needsSync := false } ∧
     (∃ i, (fsync_wrapper st fh).1.fs rf.path = some ⟨st.nextHostIno, some i, some h.fileLen⟩)) ∧
    (h.needsSync = false → flush_wrapper st fh = (st, .ok ())) ∧
    (h.needsSync = true →
      (flush_wrapper st fh).2 = .ok () ∧
      (flush_wrapper st fh).1.opened fh = some { h with needsSync := false } ∧
      (∃ i, (flush_wrapper st fh).1.fs rf.path = some ⟨st.nextHostIno, some i, some h.fileLen⟩)) := by
  obtain ⟨i, hok, hfs, hop, hhe, hnext⟩ := store_shape st rf.path h.fileLen he
  refine ⟨?_, ?_, ?_⟩
  · simp only [fsync_wrapper, sync_to_fs, hfh, hr, hok, Bool.or_true]
    simp only [Bool.false_eq_true, if_false, if_true, reduceIte]
    refine ⟨by trivial, by simp, i, by simp [hfs]⟩
  · intro hns
    simp only [flush_wrapper, sync_to_fs, hfh, hns, Bool.or_false]
    simp
  · intro hns
    simp only [flush_wrapper, sync_to_fs, hfh, hr, hok, hns, Bool.or_false]
    simp only [Bool.false_eq_true, if_false, if_true, reduceIte]
    refine ⟨by trivial, by simp, i, by simp [hfs]⟩

/-- One clean (non-dirty) open FH 0 on `d/f.zst` (MI 100). -/
def exStC4 : ZState :=
  { fs := fun p => if p = "d/f.zst" then some ⟨3, some 100, some 4⟩ else none,
    cache := fun _ => none,
    opened := fun k => if k = 0 then some ⟨0, false, 7, some ⟨100, "d/f.zst"⟩⟩ else none,
    allocIdx := 500,
    nextHostIno := 10,
    hostError := none,
    convert := false }

theorem fsync_flush_commit_semantics_witness :
    (fsync_wrapper exStC4 0).2 = .ok () ∧
    (fsync_wrapper exStC4 0).1.opened 0 = some ⟨0, false, 7, some ⟨100, "d/f.zst"⟩⟩ ∧
    (∃ i, (fsync_wrapper exStC4 0).1.fs "d/f.zst" = some ⟨10, some i, some 7⟩) ∧
    flush_wrapper exStC4 0 = (exStC4, .ok ()) := by
  have h := fsync_flush_commit_semantics exStC4 0 ⟨0, false, 7, some ⟨100, "d/f.zst"⟩⟩
    ⟨100, "d/f.zst"⟩ rfl rfl rfl
  exact ⟨h.1.1, h.1.2.1, h.1.2.2, h.2.1 rfl⟩

/-- Claim C7: `release` on an FH absent from the open-file table replies
success (the `EBADF` produced by `close` is absorbed by the dispatcher),
while a failure of the commit that runs during release is propagated to
the caller as its error code. -/
theorem release_absorbs_stale_fh (st : ZState) (fh : Nat) :
    (st.opened fh = none → releaseOp st fh = (st, .okReply)) ∧
    (∀ h rf e, st.opened fh = some h → h.refs = some rf → h.needsSync = true →
      st.hostError = some e → e ≠ EBADF →
      (releaseOp st fh).2 = .errReply e) := by
  constructor
  · intro hnone
    simp [releaseOp, release_wrapper, sync_to_fs, hnone]
  · intro h rf e hfh hr hns herr hne
    simp [releaseOp, release_wrapper, sync_to_fs, store_to_source_file, hfh, hr, hns, herr, hne]

/-- Like `exStC4` but with the FH dirty and the host-error oracle
primed to fail the commit with raw errno 5. -/
def exStRel : ZState :=
  { fs := fun p => if p = "d/f.zst" then some ⟨3, some 100, some 4⟩ else none,
    cache := fun _ => none,
    opened := fun k => if k = 0 then some ⟨0, true, 7, some ⟨100, "d/f.zst"⟩⟩ else none,
    allocIdx := 500,
    nextHostIno := 10,
    hostError := some 5,
    convert := false }

theorem release_absorbs_stale_fh_witness :
    releaseOp exStRel 1 = (exStRel, .okReply) ∧
    (releaseOp exStRel 0).2 = .errReply 5 := by
  constructor
  · exact (release_absorbs_stale_fh exStRel 1).1 rfl
  · exact (release_absorbs_stale_fh exStRel 0).2 ⟨0, true, 7, some ⟨100, "d/f.zst"⟩⟩
      ⟨100, "d/f.zst"⟩ 5 rfl rfl rfl rfl (by decide)

/-!
## Theorems: rename destination handling (C2) and unlink (C10)
-/

theorem openedUnlinkZ_clears (st : ZState) (ino fh : Nat) (h : FileHandlerM) (rf : RefsM)
    (hfh : (openedUnlinkZ st ino).opened fh = some h) (hr : h.refs = some rf) :
    rf.ino ≠ ino := by
  simp only [openedUnlinkZ] at hfh
  cases hst : st.opened fh with
  | none =>
    simp only [hst] at hfh
    exact absurd hfh (by simp)
  | some h0 =>
    simp only [hst] at hfh
    cases hr0 : h0.refs with
    | none =>
      simp only [hr0] at hfh
      cases hfh
      rw [hr0] at hr
      cases hr
    | some r0 =>
      simp only [hr0] at hfh
      by_cases hc : r0.ino = ino
      · rw [if_pos hc] at hfh
        cases hfh
        cases hr
      · rw [if_neg hc] at hfh
        cases hfh
        rw [hr0] at hr
        cases hr
        exact hc

/-- Claim C2 amended: when the rename destination already exists, the
value that `rename_wrapper` drops from the inode cache and passes to
`OpenedFiles::unlink` is the destination's host inode (`st_ino` from
`fs::metadata`), not the MI stored in its `user.ino` xattr: after the
rename the cache entry keyed by that host inode is gone and no open FH
keeps a reference carrying that host inode, while cache entries and FHs
keyed by the destination's `user.ino` MI are untouched whenever that MI
differs from the host inode. -/
theorem rename_unlinks_by_host_inode (st : ZState) (fromPath toPath : String) (ino : Nat)
    (obj : FsObj) (hdest : st.fs toPath = some obj) (hne : ino ≠ obj.hostIno) :
    (rename_wrapper st fromPath toPath ino).1.cache obj.hostIno = none ∧
    (∀ fh h rf, (rename_wrapper st fromPath toPath ino).1.opened fh = some h →
      h.refs = some rf → rf.ino ≠ obj.hostIno) := by
  have hne2 : obj.hostIno ≠ ino := Ne.symm hne
  simp only [rename_wrapper, hdest]
  cases hsrc : (openedUnlinkZ { st with cache := cacheDelZ st.cache obj.hostIno }
      obj.hostIno).fs fromPath with
  | none =>
    simp only [hsrc]
    constructor
    · simp [openedUnlinkZ, cacheDelZ]
    · intro fh h rf hfh hr
      exact openedUnlinkZ_clears _ _ _ _ _ hfh hr
  | some src =>
    simp only [hsrc]
    constructor
    · simp [openedUnlinkZ, cacheSetZ, cacheDelZ, hne2]
    · intro fh h rf hfh hr
      exact openedUnlinkZ_clears _ _ _ _ _ hfh hr

/-- Data dir with `d/a.zst` (MI 200, host inode 3) and `d/b.zst`
(MI 100, host inode 7); the cache binds both MIs and FH 0 is an open,
dirty handle on `d/b.zst` bound to MI 100. -/
def exStRen : ZState :=
  { fs := fun p =>
      if p = "d/a.zst" then some ⟨3, some 200, some 1⟩
      else if p = "d/b.zst" then some ⟨7, some 100, some 1⟩
      else none,
    cache := fun i =>
      if i = 100 then some "d/b.zst"
      else if i = 200 then some "d/a.zst"
      else none,
    opened := fun k => if k = 0 then some ⟨0, true, 5, some ⟨100, "d/b.zst"⟩⟩ else none,
    allocIdx := 500,
    nextHostIno := 10,
    hostError := none,
    convert := false }

/-- Claim C2 counterexample: renaming `d/a.zst` over the existing
`d/b.zst` (whose `user.ino` xattr holds MI 100 while its host inode is
7) leaves the cache entry for MI 100 in place and leaves FH 0 — an open
FH bound to MI 100 — with its references intact, because the code keys
the cache drop and the unlink-marking by the host inode 7 taken from
`fs::metadata`, not by the MI from `user.ino`. -/
theorem rename_drops_host_inode_not_mi_cex :
    exStRen.fs "d/b.zst" = some ⟨7, some 100, some 1⟩ ∧
    (rename_wrapper exStRen "d/a.zst" "d/b.zst" 200).2 = .ok () ∧
    (rename_wrapper exStRen "d/a.zst" "d/b.zst" 200).1.cache 100 = some "d/b.zst" ∧
    (rename_wrapper exStRen "d/a.zst" "d/b.zst" 200).1.opened 0 =
      some ⟨0, true, 5, some ⟨100, "d/b.zst"⟩⟩ := by
  exact ⟨rfl, rfl, by decide, by decide⟩

theorem rename_unlinks_by_host_inode_witness :
    (rename_wrapper exStRen "d/a.zst" "d/b.zst" 200).1.cache 7 = none ∧
    (∀ fh h rf, (rename_wrapper exStRen "d/a.zst" "d/b.zst" 200).1.opened fh = some h →
      h.refs = some rf → rf.ino ≠ 7) :=
  rename_unlinks_by_host_inode exStRen "d/a.zst" "d/b.zst" 200 ⟨7, some 100, some 1⟩
    (by decide) (by decide)

theorem zst_suffix_ne (s : String) : s ++ ".zst" ≠ s := by
  intro hcontra
  have hlen := congrArg String.length hcontra
  rw [String.length_append] at hlen
  have h4 : (".zst" : String).length = 4 := rfl
  rw [h4] at hlen
  omega

/-- Claim C10: `unlink_wrapper` operates on `name + ".zst"` only,
independently of convert mode: when no `name.zst` object exists the
operation fails with the host's `ENOENT` and changes nothing (so an
unsuffixed file visible in convert mode survives), and when `name.zst`
exists it is the only path removed — the unsuffixed `name` is left
untouched. -/
theorem unlink_targets_zst_only (st : ZState) (parent name : String) :
    (st.fs (parent ++ "/" ++ name ++ ".zst") = none →
      unlink_wrapper st parent name = (st, .error ENOENT)) ∧
    (∀ b, (unlink_wrapper { st with convert := b } parent name).2
        = (unlink_wrapper st parent name).2) ∧
    (∀ obj, st.fs (parent ++ "/" ++ name ++ ".zst") = some obj →
      (unlink_wrapper st parent name).2 = .ok () ∧
      (unlink_wrapper st parent name).1.fs (parent ++ "/" ++ name ++ ".zst") = none ∧
      (unlink_wrapper st parent name).1.fs (parent ++ "/" ++ name)
        = st.fs (parent ++ "/" ++ name)) := by
  have hne2 : parent ++ "/" ++ name ≠ parent ++ "/" ++ name ++ ".zst" :=
    fun hcon => zst_suffix_ne (parent ++ "/" ++ name) hcon.symm
  refine ⟨?_, ?_, ?_⟩
  · intro hnone
    simp only [unlink_wrapper, hnone]
  · intro b
    cases hfs : st.fs (parent ++ "/" ++ name ++ ".zst") with
    | none => simp [unlink_wrapper, hfs]
    | some obj =>
      cases hio : obj.userIno with
      | none => simp [unlink_wrapper, hfs, hio]
      | some ino => simp [unlink_wrapper, hfs, hio, openedUnlinkZ, cacheDelZ]
  · intro obj hsome
    cases hio : obj.userIno with
    | none =>
      simp only [unlink_wrapper, hsome, hio]
      refine ⟨by trivial, by simp, ?_⟩
      simp [hne2]
    | some ino =>
      simp only [unlink_wrapper, hsome, hio]
      refine ⟨by trivial, by simp, ?_⟩
      simp [openedUnlinkZ, hne2]

/-- Convert-mode data dir holding only the unsuffixed regular file `d/a`. -/
def exStU : ZState :=
  { fs := fun p => if p = "d/a" then some ⟨3, none, none⟩ else none,
    cache := fun _ => none,
    opened := fun _ => none,
    allocIdx := 500,
    nextHostIno := 10,
    hostError := none,
    convert := true }

theorem unlink_targets_zst_only_witness :
    unlink_wrapper exStU "d" "a" = (exStU, .error ENOENT) ∧
    exStU.fs "d/a" = some ⟨3, none, none⟩ := by
  refine ⟨?_, rfl⟩
  exact (unlink_targets_zst_only exStU "d" "a").1 (by decide)

/-!
## Two-index open-file table (src/file.rs `OpenedFiles`)

`HashMap`s are modelled as association lists (`lookupA` returns the
most recent binding) and the `HashSet<u64>` values as lists of FHs.
The FH allocator scans for the smallest unused number as the source
does; the scan is bounded by `handlers.length + 1`, a range that always
contains a free number, where the source scans `0..=u64::MAX`.
-/

structure Inode2 where
  mountPointInode : Nat
  dataDirInode : Nat
  deriving DecidableEq, Repr

structure Refs2 where
  inode : Inode2
  path : String
  deriving DecidableEq, Repr

structure FileHandler2 where
  flags : Int
  needsSync : Bool
  refs : Option Refs2
  deriving DecidableEq, Repr

def lookupA {β : Type} (k : Nat) : List (Nat × β) → Option β
  | [] => none
  | (k2, v) :: rest => if k = k2 then some v else lookupA k rest

def eraseA {β : Type} (k : Nat) : List (Nat × β) → List (Nat × β)
  | [] => []
  | (k2, v) :: rest => if k2 = k then eraseA k rest else (k2, v) :: eraseA k rest

def insertA {β : Type} (k : Nat) (v : β) (l : List (Nat × β)) : List (Nat × β) :=
  (k, v) :: eraseA k l

/-- The open-file table of src/file.rs: both inode index maps plus the
FH → handler map. -/
structure OFiles where
  dataDirInodeMapping : List (Nat × List Nat)
  mountPointInodeMapping : List (Nat × List Nat)
  handlers : List (Nat × FileHandler2)
  deriving DecidableEq, Repr

/-- `OpenedFiles::new_fh_number` (src/file.rs:40-47): smallest unused FH. -/
def newFhNumber (hs : List (Nat × FileHandler2)) : Option Nat :=
  (List.range (hs.length + 1)).find? (fun i => (lookupA i hs).isNone)

/-- `OpenedFiles::insert` (src/file.rs:71-94): allocate an FH, record the
handler with `needs_sync = false` and `refs = Some{inode, path}`, and
index the new FH under both inode keys. -/
def ofInsert (t : OFiles) (inode : Inode2) (flags : Int) (path : String) :
    Option (Nat × OFiles) :=
  match newFhNumber t.handlers with
  | none => none
  | some newFh =>
    let handlers2 := insertA newFh ⟨flags, false, some ⟨inode, path⟩⟩ t.handlers
    let dd2 :=
      match lookupA inode.dataDirInode t.dataDirInodeMapping with
      | some s => insertA inode.dataDirInode (s ++ [newFh]) t.dataDirInodeMapping
      | none => insertA inode.dataDirInode [newFh] t.dataDirInodeMapping
    let mp2 :=
      match lookupA inode.mountPointInode t.mountPointInodeMapping with
      | some s => insertA inode.mountPointInode (s ++ [newFh]) t.mountPointInodeMapping
      | none => insertA inode.mountPointInode [newFh] t.mountPointInodeMapping
    some (newFh, ⟨dd2, mp2, handlers2⟩)

/-- `OpenedFiles::duplicate` (src/file.rs:96-121): if some FH is indexed
under `ino`, clone its working file, allocate a new FH with the caller's
`flags`, `needs_sync = false` and the same `refs`, and store it — in
`handlers` only, exactly as the source does. -/
def ofDuplicate (t : OFiles) (ino : Nat) (flags : Int) : Option (Nat × OFiles) :=
  match lookupA ino t.dataDirInodeMapping with
  | none => none
  | some fhs =>
    match fhs.head? with
    | none => none
    | some fh =>
      match lookupA fh t.handlers with
      | none => none
      | some handler =>
        match newFhNumber t.handlers with
        | none => none
        | some newFh =>
          some (newFh,
            { t with handlers := insertA newFh ⟨flags, false, handler.refs⟩ t.handlers })

/-- `OpenedFiles::get_fhs_from_mount_point_inode` (src/file.rs:177-179). -/
def ofGetFhsFromMountPointInode (t : OFiles) (ino : Nat) : Option (List Nat) :=
  lookupA ino t.mountPointInodeMapping

/-- `OpenedFiles::get_fhs_from_data_dir_inode` (src/file.rs:173-175). -/
def ofGetFhsFromDataDirInode (t : OFiles) (ino : Nat) : Option (List Nat) :=
  lookupA ino t.dataDirInodeMapping

/-- The table after inserting one FH (number 0) for the inode pair
(MI 100, data-dir inode 5) — the state `insert` produces from empty. -/
def exT1 : OFiles :=
  ⟨[(5, [0])], [(100, [0])], [(0, ⟨0, false, some ⟨⟨100, 5⟩, "d/f.zst"⟩⟩)]⟩

/-- Claim C3 is violated by the code: starting from a table holding one
FH (number 0) bound to inode (MI 100, data-dir inode 5), `duplicate`
succeeds and returns FH 1, which is present in `handlers` but absent
from both inode index maps — `get_fhs` still returns only `[0]` — so
operations that iterate the FHs bound to the inode never reach the
duplicated FH. -/
theorem duplicate_fh_not_indexed :
    ofInsert ⟨[], [], []⟩ ⟨100, 5⟩ 0 "d/f.zst" = some (0, exT1) ∧
    ofDuplicate exT1 5 1 =
      some (1, ⟨[(5, [0])], [(100, [0])],
        [(1, ⟨1, false, some ⟨⟨100, 5⟩, "d/f.zst"⟩⟩),
         (0, ⟨0, false, some ⟨⟨100, 5⟩, "d/f.zst"⟩⟩)]⟩) ∧
    (ofDuplicate exT1 5 1).isSome = true ∧
    ofGetFhsFromDataDirInode
      (⟨[(5, [0])], [(100, [0])],
        [(1, ⟨1, false, some ⟨⟨100, 5⟩, "d/f.zst"⟩⟩),
         (0, ⟨0, false, some ⟨⟨100, 5⟩, "d/f.zst"⟩⟩)]⟩ : OFiles) 5 = some [0] ∧
    ofGetFhsFromMountPointInode
      (⟨[(5, [0])], [(100, [0])],
        [(1, ⟨1, false, some ⟨⟨100, 5⟩, "d/f.zst"⟩⟩),
         (0, ⟨0, false, some ⟨⟨100, 5⟩, "d/f.zst"⟩⟩)]⟩ : OFiles) 100 = some [0] ∧
    ¬ (1 ∈ ([0] : List Nat)) := by
  refine ⟨by decide, by decide, by decide, by decide, by decide, by decide⟩

/-!
## Lookup over a directory listing (C9)

`lookup_wrapper` (src/main.rs:215-305) enumerates the parent directory.
The listing is modelled as the list of entries in iteration order; the
cache-directory skip (line 232) only applies when the parent is the
root and is inert for the directories modelled here.  Cache and
attribute plumbing do not affect which entries are removed and are
omitted; the result records the updated listing and, on success,
whether the matched entry is a regular file.
-/

structure DEntry where
  name : String
  isFile : Bool
  deriving DecidableEq, Repr

/-- The first loop of `lookup_wrapper` (src/main.rs:221-259): find the
first entry whose file name equals `name + ".zst"` for regular files
and `name` for directories. -/
def lookupMatch (dir : List DEntry) (name : String) : Option DEntry :=
  dir.find? (fun e => e.name == (if e.isFile then name ++ ".zst" else name))

/-- `let _ = fs::remove_file(path.join(&name))`: removes the regular
file `name` when present; failures (no such file, or a directory) are
ignored. -/
def removePlainFile (dir : List DEntry) (name : String) : List DEntry :=
  dir.filter (fun e => !(e.name == name && e.isFile))

/-- Embeds `ZstdFS::lookup_wrapper` (src/main.rs:215-305) over the
parent listing: on a first-loop match, convert mode removes the plain
`name` whenever the match is a regular file; otherwise, in convert mode
and for a `name` without the `.zst` suffix, a matching plain regular
file is committed as `name.zst` and the original removed. -/
def lookup_wrapper (convert : Bool) (dir : List DEntry) (name : String) :
    List DEntry × Option Bool :=
  match lookupMatch dir name with
  | some e =>
    (if convert && e.isFile then removePlainFile dir name else dir, some e.isFile)
  | none =>
    if convert && !(name.endsWith ".zst") then
      match dir.find? (fun e => e.name == name && e.isFile) with
      | some _ => (removePlainFile dir name ++ [⟨name ++ ".zst", true⟩], some true)
      | none => (dir, none)
    else (dir, none)

theorem removePlainFile_no_plain (dir : List DEntry) (name : String) (e : DEntry)
    (he : e ∈ removePlainFile dir name) : ¬(e.name = name ∧ e.isFile = true) := by
  intro hcon
  simp only [removePlainFile, List.mem_filter] at he
  have h2 := he.2
  simp [hcon.1, hcon.2] at h2

/-- Claim C9: with convert mode off, `lookup` never removes anything
from the parent directory; with convert mode on, every successful
lookup that yields a regular file leaves no plain regular file `name`
in the resulting listing — also when the compressed `name.zst` already
existed and no conversion took place. -/
theorem lookup_convert_removes_plain (dir : List DEntry) (name : String) :
    ((lookup_wrapper false dir name).1 = dir) ∧
    ((lookup_wrapper true dir name).2 = some true →
      ∀ e ∈ (lookup_wrapper true dir name).1, ¬(e.name = name ∧ e.isFile = true)) := by
  constructor
  · cases hm : lookupMatch dir name with
    | some e => simp [lookup_wrapper, hm]
    | none => simp [lookup_wrapper, hm]
  · intro hsucc e he hcon
    cases hm : lookupMatch dir name with
    | some e0 =>
      simp only [lookup_wrapper, hm] at hsucc he
      have hf0 : e0.isFile = true := by
        simpa using hsucc
      rw [hf0] at he
      simp only [Bool.and_true, if_pos] at he
      exact removePlainFile_no_plain dir name e (by simpa using he) hcon
    | none =>
      simp only [lookup_wrapper, hm] at hsucc he
      by_cases hz : name.endsWith ".zst"
      · simp [hz] at hsucc
      · cases hfind : dir.find? (fun e2 => e2.name == name && e2.isFile) with
        | none => simp [hz, hfind] at hsucc
        | some e1 =>
          simp only [hz, hfind, Bool.not_false, Bool.and_true, if_pos] at he
          simp only [List.mem_append] at he
          cases he with
          | inl hmem => exact removePlainFile_no_plain dir name e (by simpa using hmem) hcon
          | inr hlast =>
            have hname : e.name = name ++ ".zst" := by
              cases hlast with
              | head => rfl
              | tail _ hnil => cases hnil
            rw [hcon.1] at hname
            exact zst_suffix_ne name hname.symm

/-- Listing holding both the compressed object `a.zst` and the plain
regular file `a` (the convert-mode situation after a crash between
conversion and cleanup). -/
def exDir : List DEntry := [⟨"a.zst", true⟩, ⟨"a", true⟩]

theorem lookup_convert_removes_plain_witness :
    (lookup_wrapper false exDir "a").1 = exDir ∧
    (lookup_wrapper true exDir "a").2 = some true ∧
    (lookup_wrapper true exDir "a").1 = [⟨"a.zst", true⟩] ∧
    (∀ e ∈ (lookup_wrapper true exDir "a").1, ¬(e.name = "a" ∧ e.isFile = true)) :=
  ⟨(lookup_convert_removes_plain exDir "a").1, by decide, by decide,
   (lookup_convert_removes_plain exDir "a").2 (by decide)⟩
